import Mathlib

/-!
Shallow embedding of the WebSocket hub of the Chirm chat server
(`internal/handlers/auth.go`, second compilation unit: `Hub`, `Client`,
voice-room registry, signaling relay and the inbound message dispatcher).

Modelling choices:
* A `*Client` pointer is modelled by an opaque identifier `ClientId := Nat`.
  The mutable per-connection data (`userID`, `channelID`, the buffered
  `send` channel) lives in an association list `conns` keyed by `ClientId`.
* A Go buffered channel is modelled as a list of pending frames together
  with its capacity and a closed flag.  A non-blocking send
  (`select { case ch <- m: default: }`) enqueues iff the channel is open and
  has free capacity, and otherwise leaves the state unchanged.  (All code
  paths modelled here only ever send on open queues of live clients.)
* Go `map` state is modelled by association lists; map-delete is a filter
  on the key, map-insert replaces the (unique) entry for the key.
* `Hub.Broadcast` pushes a frame on the hub's internal broadcast channel;
  that channel is modelled as the `pendingBroadcasts` list.  `Hub.Run`'s
  broadcast case (`runBroadcast`) is the consumer that fans one such frame
  out to the global connection set.
* JSON values that can appear in event payloads are modelled by `JVal`;
  `json.RawMessage` bytes are `JVal.raw`, kept opaque and uninterpreted.
-/

set_option linter.unusedVariables false

namespace Chirm

abbrev ClientId := Nat
abbrev UserId := String
abbrev ChannelId := String

/-- JSON-like values appearing in event payloads. `raw` stands for the
uninterpreted bytes of a `json.RawMessage`. -/
inductive JVal where
  | s (v : String)
  | b (v : Bool)
  | arr (vs : List String)
  | raw (bytes : String)
deriving DecidableEq, Repr

/-- `WSEvent` — the envelope of every WebSocket frame (`type` + `data`). -/
structure WSEvent where
  type : String
  data : List (String × JVal)
deriving DecidableEq, Repr

/-- The per-connection state of a `Client`: its user, its currently viewed
text channel, and its buffered outbound `send` channel. -/
structure ConnState where
  userID : UserId
  channelID : ChannelId
  queue : List WSEvent
  queueCap : Nat
  queueClosed : Bool
deriving DecidableEq, Repr

/-- The `Hub`: global client set, per-client states, the voice-room
registry and the hub-internal broadcast channel. -/
structure HubState where
  clients : List ClientId
  conns : List (ClientId × ConnState)
  voiceRooms : List (ChannelId × List ClientId)
  pendingBroadcasts : List WSEvent
deriving DecidableEq, Repr

/-- Association-list lookup for client states. -/
def lookupC : List (ClientId × ConnState) → ClientId → Option ConnState
  | [], _ => none
  | p :: rest, c => if p.1 = c then some p.2 else lookupC rest c

/-- Pointwise update of the state stored for client `c`. -/
def updateConn : List (ClientId × ConnState) → ClientId → (ConnState → ConnState) → List (ClientId × ConnState)
  | [], _, _ => []
  | p :: rest, c, f => if p.1 = c then (p.1, f p.2) :: updateConn rest c f else p :: updateConn rest c f

def lookupConn (h : HubState) (c : ClientId) : Option ConnState :=
  lookupC h.conns c

/-- `client.userID` (the zero value for a client with no recorded state). -/
def userOf (h : HubState) (c : ClientId) : UserId :=
  (lookupConn h c).elim "" ConnState.userID

/-- `client.channelID` — the currently viewed text channel. -/
def viewedChannel (h : HubState) (c : ClientId) : ChannelId :=
  (lookupConn h c).elim "" ConnState.channelID

/-- Whether a non-blocking send on this queue would succeed right now. -/
def canAccept (cs : ConnState) : Bool :=
  !cs.queueClosed && decide (cs.queue.length < cs.queueCap)

/-- `select { case ch <- e: (true) default: (false) }` on one queue. -/
def trySend (cs : ConnState) (e : WSEvent) : ConnState × Bool :=
  if canAccept cs then ({ cs with queue := cs.queue ++ [e] }, true) else (cs, false)

/-- Whether client `c`'s queue would accept a frame in state `h`. -/
def acceptsNow (h : HubState) (c : ClientId) : Bool :=
  match lookupConn h c with
  | some cs => canAccept cs
  | none => false

/-- Non-blocking send of `e` to client `c` (hub-state level). -/
def sendOne (h : HubState) (c : ClientId) (e : WSEvent) : HubState :=
  { h with conns := updateConn h.conns c (fun cs => (trySend cs e).1) }

/-- `close(client.send)`. -/
def closeQueue (h : HubState) (c : ClientId) : HubState :=
  { h with conns := updateConn h.conns c (fun cs => { cs with queueClosed := true }) }

/-- `Client.SetChannel`. -/
def setChannel (h : HubState) (c : ClientId) (ch : ChannelId) : HubState :=
  { h with conns := updateConn h.conns c (fun cs => { cs with channelID := ch }) }

/-- `Client.sendEvent`: non-blocking send to the client's own queue. -/
def sendEvent (h : HubState) (c : ClientId) (e : WSEvent) : HubState :=
  sendOne h c e

/-- Guarded fan-out loop: walk `l`, and for each client for which the guard
holds in the current state, attempt a non-blocking send.  This is the shape
shared by `SendToUser`, `BroadcastToChannel` and `BroadcastToVoiceRoom`. -/
def foldSend (e : WSEvent) (g : HubState → ClientId → Bool) (h : HubState) (l : List ClientId) : HubState :=
  l.foldl (fun acc x => if g acc x then sendOne acc x e else acc) h

/-- `Hub.SendToUser`: deliver to every connection whose `userID` matches. -/
def SendToUser (h : HubState) (targetUserID : UserId) (e : WSEvent) : HubState :=
  foldSend e (fun acc x => userOf acc x == targetUserID) h h.clients

/-- `Hub.BroadcastToChannel`: deliver to connections viewing `channelID`. -/
def BroadcastToChannel (h : HubState) (channelID : ChannelId) (e : WSEvent) : HubState :=
  foldSend e (fun acc x => viewedChannel acc x == channelID) h h.clients

/-- Voice-room registry lookup (`h.voiceRooms[channelID]`). -/
def findRoom : List (ChannelId × List ClientId) → ChannelId → Option (List ClientId)
  | [], _ => none
  | p :: rest, ch => if p.1 = ch then some p.2 else findRoom rest ch

/-- The membership set of a room (empty when the entry is absent). -/
def roomMembers (h : HubState) (ch : ChannelId) : List ClientId :=
  (findRoom h.voiceRooms ch).getD []

/-- Map-insert for the room registry: replace the entry for `ch`, or append
a fresh one. -/
def setRoom : List (ChannelId × List ClientId) → ChannelId → List ClientId → List (ChannelId × List ClientId)
  | [], ch, r => [(ch, r)]
  | p :: rest, ch, r => if p.1 = ch then (ch, r) :: rest else p :: setRoom rest ch r

/-- Map-delete for the room registry (`delete(h.voiceRooms, ch)`). -/
def delRoom : List (ChannelId × List ClientId) → ChannelId → List (ChannelId × List ClientId)
  | [], _ => []
  | p :: rest, ch => if p.1 = ch then delRoom rest ch else p :: delRoom rest ch

/-- `Hub.BroadcastToVoiceRoom`: deliver to every member of the room,
optionally skipping `exclude`. -/
def BroadcastToVoiceRoom (h : HubState) (channelID : ChannelId) (e : WSEvent) (exclude : Option ClientId) : HubState :=
  match findRoom h.voiceRooms channelID with
  | none => h
  | some room => foldSend e (fun _ m => exclude != some m) h room

/-- `Hub.Broadcast`: push the frame on the hub's broadcast channel. -/
def hubBroadcast (h : HubState) (e : WSEvent) : HubState :=
  { h with pendingBroadcasts := h.pendingBroadcasts ++ [e] }

/-- `Hub.joinVoiceRoom`: snapshot the existing members' user IDs, then add
the client to the room. -/
def joinVoiceRoom (h : HubState) (channelID : ChannelId) (c : ClientId) : HubState × List UserId :=
  let room := (findRoom h.voiceRooms channelID).getD []
  let existing := room.map (userOf h)
  let newRoom := if c ∈ room then room else room ++ [c]
  ({ h with voiceRooms := setRoom h.voiceRooms channelID newRoom }, existing)

/-- `Hub.leaveVoiceRoom`: remove the client if present, pruning the room
entry when it becomes empty; report whether the client was present. -/
def leaveVoiceRoom (h : HubState) (channelID : ChannelId) (c : ClientId) : HubState × Bool :=
  match findRoom h.voiceRooms channelID with
  | none => (h, false)
  | some room =>
    if c ∈ room then
      let room2 := room.filter (fun x => x != c)
      if room2.isEmpty then ({ h with voiceRooms := delRoom h.voiceRooms channelID }, true)
      else ({ h with voiceRooms := setRoom h.voiceRooms channelID room2 }, true)
    else (h, false)

/-- The `voice.left` event payload. -/
def voiceLeftEvent (ch : ChannelId) (uid : UserId) : WSEvent :=
  { type := "voice.left", data := [("channel_id", JVal.s ch), ("user_id", JVal.s uid)] }

/-- The registry part of `Hub.leaveAllVoiceRooms`: remove `c` from every
room, pruning entries that become empty, and collect the affected rooms. -/
def removeFromAll (c : ClientId) : List (ChannelId × List ClientId) → List (ChannelId × List ClientId) × List ChannelId
  | [] => ([], [])
  | (ch, room) :: rest =>
    let r := removeFromAll c rest
    if c ∈ room then
      let room2 := room.filter (fun x => x != c)
      if room2.isEmpty then (r.1, ch :: r.2) else ((ch, room2) :: r.1, ch :: r.2)
    else ((ch, room) :: r.1, r.2)

/-- `Hub.leaveAllVoiceRooms`: remove the client from every room, then emit
one `voice.left` per affected room (to the room, then globally). -/
def leaveAllVoiceRooms (h : HubState) (c : ClientId) : HubState :=
  let r := removeFromAll c h.voiceRooms
  let uid := userOf h c
  r.2.foldl
    (fun acc ch =>
      hubBroadcast (BroadcastToVoiceRoom acc ch (voiceLeftEvent ch uid) none) (voiceLeftEvent ch uid))
    { h with voiceRooms := r.1 }

/-- `Hub.Run`, unregister case: guarded removal + queue close, then
room cleanup. -/
def unregister (h : HubState) (c : ClientId) : HubState :=
  leaveAllVoiceRooms
    (if c ∈ h.clients then
      { closeQueue h c with clients := h.clients.filter (fun x => x != c) }
     else h) c

/-- `Hub.Run`, register case. -/
def register (h : HubState) (c : ClientId) : HubState :=
  if c ∈ h.clients then h else { h with clients := h.clients ++ [c] }

/-- First pass of `Hub.Run`'s broadcast case: non-blocking send to every
registered client under the read lock, collecting dead ones. -/
def sendPhase (e : WSEvent) : HubState → List ClientId → HubState × List ClientId
  | h, [] => (h, [])
  | h, c :: rest =>
    let ok := acceptsNow h c
    let r := sendPhase e (sendOne h c e) rest
    (r.1, if ok then r.2 else c :: r.2)

/-- Second pass: evict one dead client under the write lock (guarded). -/
def evictOne (h : HubState) (c : ClientId) : HubState :=
  if c ∈ h.clients then
    { closeQueue h c with clients := h.clients.filter (fun x => x != c) }
  else h

/-- `Hub.Run`, broadcast case: fan one frame out to the global set, then
evict the clients whose queues were full. -/
def runBroadcast (h : HubState) (e : WSEvent) : HubState :=
  let r := sendPhase e h h.clients
  r.2.foldl evictOne r.1

/-- `Hub.AreInSameVoiceRoom`: both users have a client in the room. -/
def AreInSameVoiceRoom (h : HubState) (channelID : ChannelId) (userA userB : UserId) : Bool :=
  match findRoom h.voiceRooms channelID with
  | none => false
  | some room =>
    room.any (fun m => userOf h m == userA) && room.any (fun m => userOf h m == userB)

/-- `Hub.GetVoiceRoomSnapshot`: channelID → member user IDs. -/
def GetVoiceRoomSnapshot (h : HubState) : List (ChannelId × List UserId) :=
  h.voiceRooms.map (fun p => (p.1, p.2.map (userOf h)))

/-! ## Inbound message layer (`rawClientMessage`, `handleMessage`, `readPump`) -/

/-- The `data` part of a `rawClientMessage`.  `bad` stands for bytes on
which `json.Unmarshal` into any of the per-command structs errors (a JSON
value that is not an object, or absent/empty raw data); an object decodes
field-by-field with Go zero-value defaults for absent fields. -/
inductive RawData where
  | obj (fields : List (String × JVal))
  | bad
deriving DecidableEq, Repr

/-- Decode a `string`-typed struct field: absent fields take the zero value
`""`; a present field of the wrong JSON type makes the whole decode fail. -/
def getStrField : List (String × JVal) → String → Option String
  | [], _ => some ""
  | p :: rest, k =>
    if p.1 = k then
      match p.2 with
      | JVal.s v => some v
      | _ => none
    else getStrField rest k

/-- Decode a `bool`-typed struct field (zero value `false`). -/
def getBoolField : List (String × JVal) → String → Option Bool
  | [], _ => some false
  | p :: rest, k =>
    if p.1 = k then
      match p.2 with
      | JVal.b v => some v
      | _ => none
    else getBoolField rest k

/-- Decode a `json.RawMessage` field: the raw bytes are captured as-is and
never cause a decode error; an absent field is the nil raw message. -/
def getPayloadField : List (String × JVal) → String → JVal
  | [], _ => JVal.raw ""
  | p :: rest, k => if p.1 = k then p.2 else getPayloadField rest k

/-- `json.Unmarshal(evt.Data, &d)` for `struct { ChannelID string }`. -/
def decodeChannelID : RawData → Option String
  | RawData.bad => none
  | RawData.obj fs => getStrField fs "channel_id"

/-- Unmarshal for the signaling struct
`{ ChannelID, TargetUserID string; Payload json.RawMessage }`. -/
def decodeSignal : RawData → Option (String × String × JVal)
  | RawData.bad => none
  | RawData.obj fs =>
    match getStrField fs "channel_id", getStrField fs "target_user_id" with
    | some ch, some tgt => some (ch, tgt, getPayloadField fs "payload")
    | _, _ => none

/-- Unmarshal for `{ ChannelID string; CamEnabled, ScreenSharing bool }`. -/
def decodeMediaState : RawData → Option (String × Bool × Bool)
  | RawData.bad => none
  | RawData.obj fs =>
    match getStrField fs "channel_id", getBoolField fs "cam_enabled", getBoolField fs "screen_sharing" with
    | some ch, some cam, some ss => some (ch, cam, ss)
    | _, _, _ => none

/-- The three WebRTC signaling command types sharing one `switch` case. -/
def sigTypes : List String := ["voice.offer", "voice.answer", "voice.ice"]

/-- Every inbound command type `handleMessage` has a case for. -/
def knownTypes : List String :=
  ["subscribe", "typing", "voice.join", "voice.leave",
   "voice.offer", "voice.answer", "voice.ice", "voice.media_state"]

def typingEvent (uid ch : String) : WSEvent :=
  { type := "typing", data := [("user_id", JVal.s uid), ("channel_id", JVal.s ch)] }

def roomStateEvent (ch : ChannelId) (participants : List UserId) : WSEvent :=
  { type := "voice.room_state",
    data := [("channel_id", JVal.s ch), ("participants", JVal.arr participants)] }

def voiceJoinedEvent (ch : ChannelId) (uid : UserId) : WSEvent :=
  { type := "voice.joined", data := [("channel_id", JVal.s ch), ("user_id", JVal.s uid)] }

/-- The relayed signaling frame: inbound type tag, wrapped with the
sender's user ID and carrying the payload bytes untouched. -/
def signalEvent (ty : String) (ch : ChannelId) (fromUid : UserId) (payload : JVal) : WSEvent :=
  { type := ty,
    data := [("channel_id", JVal.s ch), ("from_user_id", JVal.s fromUid), ("payload", payload)] }

def mediaStateEvent (ch : ChannelId) (fromUid : UserId) (cam ss : Bool) : WSEvent :=
  { type := "voice.media_state",
    data := [("channel_id", JVal.s ch), ("from_user_id", JVal.s fromUid),
             ("cam_enabled", JVal.b cam), ("screen_sharing", JVal.b ss)] }

/-- `Client.handleMessage`: dispatch one parsed inbound frame. -/
def handleMessage (h : HubState) (c : ClientId) (ty : String) (d : RawData) : HubState :=
  if ty = "subscribe" then
    match decodeChannelID d with
    | none => h
    | some ch => setChannel h c ch
  else if ty = "typing" then
    match decodeChannelID d with
    | none => h
    | some ch => BroadcastToChannel h ch (typingEvent (userOf h c) ch)
  else if ty = "voice.join" then
    match decodeChannelID d with
    | none => h
    | some ch =>
      if ch = "" then h
      else
        let r := joinVoiceRoom h ch c
        let h2 := sendEvent r.1 c (roomStateEvent ch r.2)
        let h3 := BroadcastToVoiceRoom h2 ch (voiceJoinedEvent ch (userOf h c)) (some c)
        hubBroadcast h3 (voiceJoinedEvent ch (userOf h c))
  else if ty = "voice.leave" then
    match decodeChannelID d with
    | none => h
    | some ch =>
      if ch = "" then h
      else
        let r := leaveVoiceRoom h ch c
        if r.2 then
          hubBroadcast
            (BroadcastToVoiceRoom r.1 ch (voiceLeftEvent ch (userOf h c)) none)
            (voiceLeftEvent ch (userOf h c))
        else r.1
  else if ty ∈ sigTypes then
    match decodeSignal d with
    | none => h
    | some (ch, tgt, pl) =>
      if tgt = "" then h
      else if AreInSameVoiceRoom h ch (userOf h c) tgt then
        SendToUser h tgt (signalEvent ty ch (userOf h c) pl)
      else h
  else if ty = "voice.media_state" then
    match decodeMediaState d with
    | none => h
    | some (ch, cam, ss) =>
      if ch = "" then h
      else BroadcastToVoiceRoom h ch (mediaStateEvent ch (userOf h c) cam ss) (some c)
  else h

/-- One inbound wire frame as seen by `Client.readPump`: either bytes that
fail top-level `json.Unmarshal` into `rawClientMessage`, or a parsed
`{type, data}` envelope. -/
inductive Frame where
  | badJSON
  | msg (ty : String) (d : RawData)
deriving DecidableEq, Repr

/-- The body of `Client.readPump`'s loop over a sequence of inbound frames:
malformed JSON is skipped, everything else is dispatched, and the loop
always continues with the remaining frames. -/
def readLoop (h : HubState) (c : ClientId) : List Frame → HubState
  | [] => h
  | Frame.badJSON :: rest => readLoop h c rest
  | Frame.msg ty d :: rest => readLoop (handleMessage h c ty d) c rest

/-! ## Auxiliary definitions used to state the verified properties -/

/-- The room-registry mutators (the operations §4.2 of the spec names). -/
inductive RegOp where
  | join (ch : ChannelId) (c : ClientId)
  | leave (ch : ChannelId) (c : ClientId)
  | leaveAll (c : ClientId)
deriving DecidableEq, Repr

def applyOp (h : HubState) : RegOp → HubState
  | RegOp.join ch c => (joinVoiceRoom h ch c).1
  | RegOp.leave ch c => (leaveVoiceRoom h ch c).1
  | RegOp.leaveAll c => leaveAllVoiceRooms h c

/-- No room entry in the registry has an empty membership set. -/
def noEmptyRooms (h : HubState) : Prop :=
  ∀ p ∈ h.voiceRooms, p.2 ≠ []

/-- A fresh connection state for user `u` (empty open queue of capacity 8). -/
def mkConn (u : String) : ConnState :=
  { userID := u, channelID := "", queue := [], queueCap := 8, queueClosed := false }

/-- A fresh connection state for user `u` viewing text channel `ch`. -/
def mkConnCh (u ch : String) : ConnState :=
  { userID := u, channelID := ch, queue := [], queueCap := 8, queueClosed := false }

/-- A connection whose outbound queue can accept nothing (stalled). -/
def stalledConn : ConnState :=
  { userID := "u2", channelID := "", queue := [], queueCap := 0, queueClosed := false }

/-- Three clients; users u1 and u2 are in voice room "gen", u3 is not. -/
def hubTwoInRoom : HubState :=
  { clients := [0, 1, 2],
    conns := [(0, mkConn "u1"), (1, mkConn "u2"), (2, mkConn "u3")],
    voiceRooms := [("gen", [0, 1])],
    pendingBroadcasts := [] }

/-- Two clients viewing different text channels, no voice rooms. -/
def hubChannels : HubState :=
  { clients := [0, 1],
    conns := [(0, mkConnCh "u1" "A"), (1, mkConnCh "u2" "B")],
    voiceRooms := [],
    pendingBroadcasts := [] }

/-- One client that is already a member of voice room "gen". -/
def hubRejoin : HubState :=
  { clients := [0],
    conns := [(0, mkConn "u1")],
    voiceRooms := [("gen", [0])],
    pendingBroadcasts := [] }

/-- Two connected clients, nobody in a voice room yet (scenario A start). -/
def hubScenA : HubState :=
  { clients := [0, 1],
    conns := [(0, mkConn "u1"), (1, mkConn "u2")],
    voiceRooms := [],
    pendingBroadcasts := [] }

/-- Three clients where exactly client 1 has a stalled outbound queue. -/
def hubStalled : HubState :=
  { clients := [0, 1, 2],
    conns := [(0, mkConn "u1"), (1, stalledConn), (2, mkConn "u3")],
    voiceRooms := [],
    pendingBroadcasts := [] }

/-- A sample broadcast frame. -/
def evMsg : WSEvent := { type := "message.new", data := [] }

/-- Inbound signaling data: offer for channel "gen" targeting user u2. -/
def fsOffer : List (String × JVal) :=
  [("channel_id", JVal.s "gen"), ("target_user_id", JVal.s "u2"), ("payload", JVal.raw "sdp-bytes")]

/-- Inbound media-state data for channel "gen" (screen_sharing absent). -/
def fsMedia : List (String × JVal) :=
  [("channel_id", JVal.s "gen"), ("cam_enabled", JVal.b true)]

/-- Inbound `voice.join` data for channel "gen". -/
def dGen : RawData := RawData.obj [("channel_id", JVal.s "gen")]

/-- Inbound `voice.join` data for channel "general-voice". -/
def dJoinGen : RawData := RawData.obj [("channel_id", JVal.s "general-voice")]

/-- The hub state after the first joiner of scenario A. -/
def hubAfterFirstJoin : HubState := handleMessage hubScenA 0 "voice.join" dJoinGen

/-! ## Basic lemmas about lookups, updates and single sends -/

theorem lookupC_updateConn_self (conns : List (ClientId × ConnState)) (x : ClientId)
    (f : ConnState → ConnState) :
    lookupC (updateConn conns x f) x = (lookupC conns x).map f := by
  induction conns with
  | nil => rfl
  | cons p rest ih =>
    by_cases hp : p.1 = x
    · simp [updateConn, lookupC, hp]
    · simp [updateConn, lookupC, hp, ih]

theorem lookupC_updateConn_ne (conns : List (ClientId × ConnState)) (x t : ClientId)
    (f : ConnState → ConnState) (hne : t ≠ x) :
    lookupC (updateConn conns x f) t = lookupC conns t := by
  induction conns with
  | nil => rfl
  | cons p rest ih =>
    by_cases hp : p.1 = x
    · simp [updateConn, lookupC, hp, hne, Ne.symm hne, ih]
    · by_cases ht : p.1 = t
      · simp [updateConn, lookupC, hp, ht, hne]
      · simp [updateConn, lookupC, hp, ht, ih]

theorem trySend_userID (cs : ConnState) (e : WSEvent) :
    ((trySend cs e).1).userID = cs.userID := by
  unfold trySend; split <;> rfl

theorem trySend_channelID (cs : ConnState) (e : WSEvent) :
    ((trySend cs e).1).channelID = cs.channelID := by
  unfold trySend; split <;> rfl

theorem trySend_of_canAccept (cs : ConnState) (e : WSEvent) (hca : canAccept cs = true) :
    (trySend cs e).1 = { cs with queue := cs.queue ++ [e] } := by
  unfold trySend; rw [if_pos hca]

theorem trySend_of_full (cs : ConnState) (e : WSEvent) (hca : canAccept cs = false) :
    (trySend cs e).1 = cs := by
  unfold trySend; rw [hca]; rfl

theorem sendOne_clients (h : HubState) (c : ClientId) (e : WSEvent) :
    (sendOne h c e).clients = h.clients := rfl

theorem sendOne_voiceRooms (h : HubState) (c : ClientId) (e : WSEvent) :
    (sendOne h c e).voiceRooms = h.voiceRooms := rfl

theorem sendOne_pending (h : HubState) (c : ClientId) (e : WSEvent) :
    (sendOne h c e).pendingBroadcasts = h.pendingBroadcasts := rfl

theorem lookupConn_sendOne_self (h : HubState) (c : ClientId) (e : WSEvent) :
    lookupConn (sendOne h c e) c = (lookupConn h c).map (fun cs => (trySend cs e).1) := by
  simp [lookupConn, sendOne, lookupC_updateConn_self]

theorem lookupConn_sendOne_ne (h : HubState) (c t : ClientId) (e : WSEvent) (hne : t ≠ c) :
    lookupConn (sendOne h c e) t = lookupConn h t := by
  simp [lookupConn, sendOne, lookupC_updateConn_ne _ _ _ _ hne]

theorem userOf_sendOne (h : HubState) (c t : ClientId) (e : WSEvent) :
    userOf (sendOne h c e) t = userOf h t := by
  by_cases hct : t = c
  · subst hct
    unfold userOf
    rw [lookupConn_sendOne_self]
    cases lookupConn h t with
    | none => rfl
    | some cs => simp [trySend_userID]
  · unfold userOf
    rw [lookupConn_sendOne_ne _ _ _ _ hct]

theorem viewedChannel_sendOne (h : HubState) (c t : ClientId) (e : WSEvent) :
    viewedChannel (sendOne h c e) t = viewedChannel h t := by
  by_cases hct : t = c
  · subst hct
    unfold viewedChannel
    rw [lookupConn_sendOne_self]
    cases lookupConn h t with
    | none => rfl
    | some cs => simp [trySend_channelID]
  · unfold viewedChannel
    rw [lookupConn_sendOne_ne _ _ _ _ hct]

theorem acceptsNow_sendOne_ne (h : HubState) (c t : ClientId) (e : WSEvent) (hne : t ≠ c) :
    acceptsNow (sendOne h c e) t = acceptsNow h t := by
  unfold acceptsNow
  rw [lookupConn_sendOne_ne _ _ _ _ hne]

/-! ## Lemmas about the guarded fan-out loop `foldSend` -/

theorem foldSend_nil (e : WSEvent) (g : HubState → ClientId → Bool) (h : HubState) :
    foldSend e g h [] = h := rfl

theorem foldSend_cons (e : WSEvent) (g : HubState → ClientId → Bool) (h : HubState)
    (x : ClientId) (l : List ClientId) :
    foldSend e g h (x :: l) = foldSend e g (if g h x then sendOne h x e else h) l := rfl

theorem foldSend_clients (e : WSEvent) (g : HubState → ClientId → Bool)
    (l : List ClientId) (h : HubState) :
    (foldSend e g h l).clients = h.clients := by
  induction l generalizing h with
  | nil => rfl
  | cons x l ih =>
    rw [foldSend_cons]
    split <;> rw [ih] <;> rfl

theorem foldSend_voiceRooms (e : WSEvent) (g : HubState → ClientId → Bool)
    (l : List ClientId) (h : HubState) :
    (foldSend e g h l).voiceRooms = h.voiceRooms := by
  induction l generalizing h with
  | nil => rfl
  | cons x l ih =>
    rw [foldSend_cons]
    split <;> rw [ih] <;> rfl

theorem foldSend_pending (e : WSEvent) (g : HubState → ClientId → Bool)
    (l : List ClientId) (h : HubState) :
    (foldSend e g h l).pendingBroadcasts = h.pendingBroadcasts := by
  induction l generalizing h with
  | nil => rfl
  | cons x l ih =>
    rw [foldSend_cons]
    split <;> rw [ih] <;> rfl

theorem userOf_foldSend (e : WSEvent) (g : HubState → ClientId → Bool)
    (l : List ClientId) (h : HubState) (t : ClientId) :
    userOf (foldSend e g h l) t = userOf h t := by
  induction l generalizing h with
  | nil => rfl
  | cons x l ih =>
    rw [foldSend_cons]
    split
    · rw [ih, userOf_sendOne]
    · rw [ih]

theorem foldSend_lookup_notmem (e : WSEvent) (g : HubState → ClientId → Bool)
    (l : List ClientId) (h : HubState) (t : ClientId) (ht : t ∉ l) :
    lookupConn (foldSend e g h l) t = lookupConn h t := by
  induction l generalizing h with
  | nil => rfl
  | cons x l ih =>
    have hne : t ≠ x := fun hc => ht (hc ▸ List.mem_cons_self x l)
    have htl : t ∉ l := fun hc => ht (List.mem_cons_of_mem x hc)
    rw [foldSend_cons]
    split
    · rw [ih _ htl, lookupConn_sendOne_ne _ _ _ _ hne]
    · rw [ih _ htl]

theorem foldSend_lookup_skip (e : WSEvent) (g : HubState → ClientId → Bool)
    (l : List ClientId) (h : HubState) (t : ClientId)
    (hinv : ∀ a y, g (sendOne a y e) t = g a t)
    (hg : g h t = false) :
    lookupConn (foldSend e g h l) t = lookupConn h t := by
  induction l generalizing h with
  | nil => rfl
  | cons x l ih =>
    rw [foldSend_cons]
    by_cases hgx : g h x = true
    · have hne : t ≠ x := by
        intro hc
        rw [hc] at hg
        rw [hg] at hgx
        exact Bool.false_ne_true hgx
      rw [if_pos hgx, ih _ (by rw [hinv]; exact hg), lookupConn_sendOne_ne _ _ _ _ hne]
    · rw [if_neg hgx, ih _ hg]

theorem foldSend_lookup_send (e : WSEvent) (g : HubState → ClientId → Bool)
    (l : List ClientId) (h : HubState) (t : ClientId) (tcs : ConnState)
    (hnd : l.Nodup) (ht : t ∈ l)
    (hinv : ∀ a y, g (sendOne a y e) t = g a t)
    (hg : g h t = true)
    (hlk : lookupConn h t = some tcs)
    (hca : canAccept tcs = true) :
    lookupConn (foldSend e g h l) t = some { tcs with queue := tcs.queue ++ [e] } := by
  induction l generalizing h with
  | nil => exact absurd ht (List.not_mem_nil t)
  | cons x l ih =>
    have hx : x ∉ l := (List.nodup_cons.mp hnd).1
    have hl : l.Nodup := (List.nodup_cons.mp hnd).2
    rw [foldSend_cons]
    rcases List.mem_cons.mp ht with htx | htl
    · subst htx
      rw [if_pos hg, foldSend_lookup_notmem _ _ _ _ _ hx, lookupConn_sendOne_self, hlk,
        Option.map_some', trySend_of_canAccept _ _ hca]
    · have hne : t ≠ x := fun hc => hx (hc ▸ htl)
      by_cases hgx : g h x = true
      · rw [if_pos hgx]
        exact ih (sendOne h x e) hl htl (by rw [hinv]; exact hg)
          (by rw [lookupConn_sendOne_ne _ _ _ _ hne]; exact hlk)
      · rw [if_neg hgx]
        exact ih h hl htl hg hlk

/-! ## Lemmas about the four delivery operations -/

theorem SendToUser_lookup_send (h : HubState) (uid : UserId) (e : WSEvent)
    (t : ClientId) (tcs : ConnState)
    (hnd : h.clients.Nodup) (ht : t ∈ h.clients) (htu : userOf h t = uid)
    (hlk : lookupConn h t = some tcs) (hca : canAccept tcs = true) :
    lookupConn (SendToUser h uid e) t = some { tcs with queue := tcs.queue ++ [e] } := by
  exact foldSend_lookup_send e _ h.clients h t tcs hnd ht
    (fun a y => by rw [userOf_sendOne]) (by simp [htu]) hlk hca

theorem BroadcastToChannel_lookup_other (h : HubState) (b : ChannelId) (e : WSEvent)
    (t : ClientId) (cs : ConnState)
    (hlk : lookupConn h t = some cs) (hne : cs.channelID ≠ b) :
    lookupConn (BroadcastToChannel h b e) t = some cs := by
  rw [show BroadcastToChannel h b e
      = foldSend e (fun acc x => viewedChannel acc x == b) h h.clients from rfl]
  rw [foldSend_lookup_skip e _ h.clients h t (fun a y => by rw [viewedChannel_sendOne])
    (by simp [viewedChannel, hlk]; exact hne)]
  exact hlk

theorem BroadcastToVoiceRoom_clients (h : HubState) (ch : ChannelId) (e : WSEvent)
    (ex : Option ClientId) :
    (BroadcastToVoiceRoom h ch e ex).clients = h.clients := by
  unfold BroadcastToVoiceRoom
  split
  · rfl
  · rw [foldSend_clients]

theorem BroadcastToVoiceRoom_voiceRooms (h : HubState) (ch : ChannelId) (e : WSEvent)
    (ex : Option ClientId) :
    (BroadcastToVoiceRoom h ch e ex).voiceRooms = h.voiceRooms := by
  unfold BroadcastToVoiceRoom
  split
  · rfl
  · rw [foldSend_voiceRooms]

theorem BroadcastToVoiceRoom_lookup_excluded (h : HubState) (ch : ChannelId) (e : WSEvent)
    (t : ClientId) :
    lookupConn (BroadcastToVoiceRoom h ch e (some t)) t = lookupConn h t := by
  unfold BroadcastToVoiceRoom
  split
  · rfl
  · exact foldSend_lookup_skip e _ _ h t (fun a y => rfl) (by simp)

theorem BroadcastToVoiceRoom_lookup_send (h : HubState) (ch : ChannelId) (e : WSEvent)
    (c m : ClientId) (mcs : ConnState)
    (hnd : (roomMembers h ch).Nodup) (hm : m ∈ roomMembers h ch) (hne : m ≠ c)
    (hlk : lookupConn h m = some mcs) (hca : canAccept mcs = true) :
    lookupConn (BroadcastToVoiceRoom h ch e (some c)) m
      = some { mcs with queue := mcs.queue ++ [e] } := by
  unfold BroadcastToVoiceRoom
  cases hfr : findRoom h.voiceRooms ch with
  | none => simp [roomMembers, hfr] at hm
  | some room =>
    have hroom : roomMembers h ch = room := by simp [roomMembers, hfr]
    rw [hroom] at hnd hm
    exact foldSend_lookup_send e _ room h m mcs hnd hm (fun a y => rfl)
      (by simp; exact fun hc => hne hc.symm) hlk hca

theorem hubBroadcast_clients (h : HubState) (e : WSEvent) :
    (hubBroadcast h e).clients = h.clients := rfl

theorem hubBroadcast_voiceRooms (h : HubState) (e : WSEvent) :
    (hubBroadcast h e).voiceRooms = h.voiceRooms := rfl

theorem hubBroadcast_lookup (h : HubState) (e : WSEvent) (t : ClientId) :
    lookupConn (hubBroadcast h e) t = lookupConn h t := rfl

/-! ## Lemmas about the broadcast fan-out of `Hub.Run` -/

theorem sendPhase_nil (e : WSEvent) (h : HubState) : sendPhase e h [] = (h, []) := rfl

theorem sendPhase_cons (e : WSEvent) (h : HubState) (c : ClientId) (l : List ClientId) :
    sendPhase e h (c :: l)
      = ((sendPhase e (sendOne h c e) l).1,
         if acceptsNow h c then (sendPhase e (sendOne h c e) l).2
         else c :: (sendPhase e (sendOne h c e) l).2) := rfl

theorem sendPhase_clients (e : WSEvent) (l : List ClientId) (h : HubState) :
    (sendPhase e h l).1.clients = h.clients := by
  induction l generalizing h with
  | nil => rfl
  | cons c l ih => rw [sendPhase_cons]; exact ih (sendOne h c e)

theorem sendPhase_voiceRooms (e : WSEvent) (l : List ClientId) (h : HubState) :
    (sendPhase e h l).1.voiceRooms = h.voiceRooms := by
  induction l generalizing h with
  | nil => rfl
  | cons c l ih => rw [sendPhase_cons]; exact ih (sendOne h c e)

theorem sendPhase_lookup_notmem (e : WSEvent) (l : List ClientId) (h : HubState)
    (t : ClientId) (ht : t ∉ l) :
    lookupConn (sendPhase e h l).1 t = lookupConn h t := by
  induction l generalizing h with
  | nil => rfl
  | cons c l ih =>
    have hne : t ≠ c := fun hc => ht (hc ▸ List.mem_cons_self c l)
    have htl : t ∉ l := fun hc => ht (List.mem_cons_of_mem c hc)
    rw [sendPhase_cons]
    simp only
    rw [ih (sendOne h c e) htl, lookupConn_sendOne_ne _ _ _ _ hne]

theorem sendPhase_lookup_mem (e : WSEvent) (l : List ClientId) (h : HubState)
    (t : ClientId) (hnd : l.Nodup) (ht : t ∈ l) :
    lookupConn (sendPhase e h l).1 t
      = (lookupConn h t).map (fun cs => (trySend cs e).1) := by
  induction l generalizing h with
  | nil => exact absurd ht (List.not_mem_nil t)
  | cons c l ih =>
    have hc : c ∉ l := (List.nodup_cons.mp hnd).1
    have hl : l.Nodup := (List.nodup_cons.mp hnd).2
    rw [sendPhase_cons]
    simp only
    rcases List.mem_cons.mp ht with htc | htl
    · subst htc
      rw [sendPhase_lookup_notmem _ _ _ _ hc, lookupConn_sendOne_self]
    · have hne : t ≠ c := fun heq => hc (heq ▸ htl)
      rw [ih (sendOne h c e) hl htl, lookupConn_sendOne_ne _ _ _ _ hne]

theorem sendPhase_dead (e : WSEvent) (l : List ClientId) (h : HubState) (hnd : l.Nodup) :
    (sendPhase e h l).2 = l.filter (fun x => !acceptsNow h x) := by
  induction l generalizing h with
  | nil => rfl
  | cons c l ih =>
    have hc : c ∉ l := (List.nodup_cons.mp hnd).1
    have hl : l.Nodup := (List.nodup_cons.mp hnd).2
    rw [sendPhase_cons]
    simp only
    have hrest : (sendPhase e (sendOne h c e) l).2 = l.filter (fun x => !acceptsNow h x) := by
      rw [ih (sendOne h c e) hl]
      refine List.filter_congr fun x hx => ?_
      have hne : x ≠ c := fun heq => hc (heq ▸ hx)
      rw [acceptsNow_sendOne_ne _ _ _ _ hne]
    rw [hrest, List.filter_cons]
    cases hacc : acceptsNow h c <;> simp [hacc]

/-! ## Eviction lemmas -/

theorem evictOne_clients_of_mem (h : HubState) (s : ClientId) (hs : s ∈ h.clients) :
    (evictOne h s).clients = h.clients.filter (fun x => x != s) := by
  unfold evictOne
  rw [if_pos hs]

theorem not_mem_filter_ne_self (l : List ClientId) (s : ClientId) :
    s ∉ l.filter (fun x => x != s) := by
  intro hmem
  have := (List.mem_filter.mp hmem).2
  simp at this

theorem evictOne_lookup_self (h : HubState) (s : ClientId) (hs : s ∈ h.clients) :
    lookupConn (evictOne h s) s
      = (lookupConn h s).map (fun cs => { cs with queueClosed := true }) := by
  unfold evictOne
  rw [if_pos hs]
  exact lookupC_updateConn_self h.conns s _

theorem evictOne_lookup_ne (h : HubState) (s t : ClientId) (hne : t ≠ s) :
    lookupConn (evictOne h s) t = lookupConn h t := by
  unfold evictOne
  split
  · exact lookupC_updateConn_ne h.conns s t _ hne
  · rfl

theorem filter_eq_singleton_of_unique (l : List ClientId) (p : ClientId → Bool) (s : ClientId)
    (hnd : l.Nodup) (hs : s ∈ l) (hp : ∀ x ∈ l, (p x = true ↔ x = s)) :
    l.filter p = [s] := by
  induction l with
  | nil => exact absurd hs (List.not_mem_nil s)
  | cons a l ih =>
    have ha : a ∉ l := (List.nodup_cons.mp hnd).1
    have hl : l.Nodup := (List.nodup_cons.mp hnd).2
    rcases List.mem_cons.mp hs with hsa | hsl
    · subst hsa
      rw [List.filter_cons_of_pos ((hp s (List.mem_cons_self s l)).mpr rfl)]
      have hnil : l.filter p = [] := by
        rw [List.filter_eq_nil_iff]
        intro x hx hpx
        exact ha (((hp x (List.mem_cons_of_mem s hx)).mp hpx) ▸ hx)
      rw [hnil]
    · have hpa : p a = false := by
        cases hpa : p a with
        | false => rfl
        | true =>
          exact absurd (((hp a (List.mem_cons_self a l)).mp hpa) ▸ hsl) ha
      rw [List.filter_cons_of_neg (by simp [hpa])]
      exact ih hl hsl (fun x hx => hp x (List.mem_cons_of_mem a hx))

/-! ## Room-registry lemmas -/

theorem findRoom_setRoom_self (rooms : List (ChannelId × List ClientId))
    (ch : ChannelId) (r : List ClientId) :
    findRoom (setRoom rooms ch r) ch = some r := by
  induction rooms with
  | nil => simp [setRoom, findRoom]
  | cons p rest ih =>
    by_cases hp : p.1 = ch
    · simp [setRoom, findRoom, hp]
    · simp [setRoom, findRoom, hp, ih]

theorem setRoom_mem (rooms : List (ChannelId × List ClientId)) (ch : ChannelId)
    (r : List ClientId) (p : ChannelId × List ClientId) (hp : p ∈ setRoom rooms ch r) :
    p = (ch, r) ∨ p ∈ rooms := by
  induction rooms with
  | nil =>
    simp [setRoom] at hp
    exact Or.inl hp
  | cons q rest ih =>
    by_cases hq : q.1 = ch
    · rw [setRoom, if_pos hq] at hp
      rcases List.mem_cons.mp hp with h1 | h2
      · exact Or.inl h1
      · exact Or.inr (List.mem_cons_of_mem q h2)
    · rw [setRoom, if_neg hq] at hp
      rcases List.mem_cons.mp hp with h1 | h2
      · exact Or.inr (h1 ▸ List.mem_cons_self q rest)
      · rcases ih h2 with h3 | h4
        · exact Or.inl h3
        · exact Or.inr (List.mem_cons_of_mem q h4)

theorem delRoom_mem (rooms : List (ChannelId × List ClientId)) (ch : ChannelId)
    (p : ChannelId × List ClientId) (hp : p ∈ delRoom rooms ch) : p ∈ rooms := by
  induction rooms with
  | nil => simpa [delRoom] using hp
  | cons q rest ih =>
    by_cases hq : q.1 = ch
    · rw [delRoom, if_pos hq] at hp
      exact List.mem_cons_of_mem q (ih hp)
    · rw [delRoom, if_neg hq] at hp
      rcases List.mem_cons.mp hp with h1 | h2
      · exact h1 ▸ List.mem_cons_self q rest
      · exact List.mem_cons_of_mem q (ih h2)

theorem removeFromAll_not_mem (c : ClientId) (rooms : List (ChannelId × List ClientId)) :
    ∀ p ∈ (removeFromAll c rooms).1, c ∉ p.2 := by
  induction rooms with
  | nil => intro p hp; simp [removeFromAll] at hp
  | cons q rest ih =>
    intro p hp
    rw [show q = (q.1, q.2) from rfl] at hp
    rw [removeFromAll] at hp
    by_cases hq : c ∈ q.2
    · rw [if_pos hq] at hp
      by_cases hemp : (q.2.filter (fun x => x != c)).isEmpty
      · rw [if_pos hemp] at hp
        exact ih p hp
      · rw [if_neg hemp] at hp
        rcases List.mem_cons.mp hp with h1 | h2
        · rw [h1]
          exact not_mem_filter_ne_self q.2 c
        · exact ih p h2
    · rw [if_neg hq] at hp
      rcases List.mem_cons.mp hp with h1 | h2
      · rw [h1]
        exact hq
      · exact ih p h2

theorem removeFromAll_nonempty (c : ClientId) (rooms : List (ChannelId × List ClientId))
    (hne : ∀ p ∈ rooms, p.2 ≠ []) :
    ∀ p ∈ (removeFromAll c rooms).1, p.2 ≠ [] := by
  induction rooms with
  | nil => intro p hp; simp [removeFromAll] at hp
  | cons q rest ih =>
    have hrest : ∀ p ∈ rest, p.2 ≠ [] := fun p hp => hne p (List.mem_cons_of_mem q hp)
    intro p hp
    rw [show q = (q.1, q.2) from rfl] at hp
    rw [removeFromAll] at hp
    by_cases hq : c ∈ q.2
    · by_cases hemp : (q.2.filter (fun x => x != c)).isEmpty
      · rw [if_pos hq, if_pos hemp] at hp
        exact ih hrest p hp
      · rw [if_pos hq, if_neg hemp] at hp
        rcases List.mem_cons.mp hp with h1 | h2
        · rw [h1]
          simpa [List.isEmpty_iff] using hemp
        · exact ih hrest p h2
    · rw [if_neg hq] at hp
      rcases List.mem_cons.mp hp with h1 | h2
      · rw [h1]
        exact hne q (List.mem_cons_self q rest)
      · exact ih hrest p h2

theorem removeFromAll_of_not_mem (c : ClientId) (rooms : List (ChannelId × List ClientId))
    (hcm : ∀ p ∈ rooms, c ∉ p.2) :
    removeFromAll c rooms = (rooms, []) := by
  induction rooms with
  | nil => rfl
  | cons q rest ih =>
    have hq : c ∉ q.2 := hcm q (List.mem_cons_self q rest)
    have hrest := ih (fun p hp => hcm p (List.mem_cons_of_mem q hp))
    rw [show q = (q.1, q.2) from rfl, removeFromAll, if_neg hq, hrest]

/-! ## Lemmas about `leaveAllVoiceRooms` and `unregister` -/

theorem leaveAllLoop_clients (uid : UserId) (l : List ChannelId) (h : HubState) :
    (l.foldl
      (fun acc ch =>
        hubBroadcast (BroadcastToVoiceRoom acc ch (voiceLeftEvent ch uid) none) (voiceLeftEvent ch uid))
      h).clients = h.clients := by
  induction l generalizing h with
  | nil => rfl
  | cons ch l ih =>
    rw [List.foldl_cons, ih, hubBroadcast_clients, BroadcastToVoiceRoom_clients]

theorem leaveAllLoop_voiceRooms (uid : UserId) (l : List ChannelId) (h : HubState) :
    (l.foldl
      (fun acc ch =>
        hubBroadcast (BroadcastToVoiceRoom acc ch (voiceLeftEvent ch uid) none) (voiceLeftEvent ch uid))
      h).voiceRooms = h.voiceRooms := by
  induction l generalizing h with
  | nil => rfl
  | cons ch l ih =>
    rw [List.foldl_cons, ih, hubBroadcast_voiceRooms, BroadcastToVoiceRoom_voiceRooms]

theorem leaveAll_clients (h : HubState) (c : ClientId) :
    (leaveAllVoiceRooms h c).clients = h.clients := by
  unfold leaveAllVoiceRooms
  rw [leaveAllLoop_clients]

theorem leaveAll_voiceRooms (h : HubState) (c : ClientId) :
    (leaveAllVoiceRooms h c).voiceRooms = (removeFromAll c h.voiceRooms).1 := by
  unfold leaveAllVoiceRooms
  rw [leaveAllLoop_voiceRooms]

theorem leaveAll_of_no_rooms (h : HubState) (c : ClientId)
    (hcm : ∀ p ∈ h.voiceRooms, c ∉ p.2) :
    leaveAllVoiceRooms h c = h := by
  unfold leaveAllVoiceRooms
  rw [removeFromAll_of_not_mem c h.voiceRooms hcm]
  rfl

theorem leaveAll_not_in_rooms (h : HubState) (c : ClientId) :
    ∀ p ∈ (leaveAllVoiceRooms h c).voiceRooms, c ∉ p.2 := by
  rw [leaveAll_voiceRooms]
  exact removeFromAll_not_mem c h.voiceRooms

/-! ## Unfolding lemmas for the `handleMessage` dispatcher -/

theorem handleMessage_signal (h : HubState) (c : ClientId) (ty : String)
    (d : RawData) (ch tgt : String) (pl : JVal)
    (hty : ty ∈ sigTypes)
    (hdec : decodeSignal d = some (ch, tgt, pl))
    (htgt : tgt ≠ "") :
    handleMessage h c ty d =
      if AreInSameVoiceRoom h ch (userOf h c) tgt
      then SendToUser h tgt (signalEvent ty ch (userOf h c) pl)
      else h := by
  have hty3 : ty = "voice.offer" ∨ ty = "voice.answer" ∨ ty = "voice.ice" := by
    simpa [sigTypes] using hty
  rcases hty3 with rfl | rfl | rfl <;>
    simp [handleMessage, sigTypes, hdec, htgt]

theorem handleMessage_join (h : HubState) (c : ClientId) (d : RawData) (ch : String)
    (hdec : decodeChannelID d = some ch) (hch : ch ≠ "") :
    handleMessage h c "voice.join" d =
      hubBroadcast
        (BroadcastToVoiceRoom
          (sendEvent (joinVoiceRoom h ch c).1 c (roomStateEvent ch (joinVoiceRoom h ch c).2))
          ch (voiceJoinedEvent ch (userOf h c)) (some c))
        (voiceJoinedEvent ch (userOf h c)) := by
  simp [handleMessage, hdec, hch]

theorem handleMessage_media (h : HubState) (c : ClientId) (d : RawData)
    (ch : String) (cam ss : Bool)
    (hdec : decodeMediaState d = some (ch, cam, ss)) (hch : ch ≠ "") :
    handleMessage h c "voice.media_state" d =
      BroadcastToVoiceRoom h ch (mediaStateEvent ch (userOf h c) cam ss) (some c) := by
  simp [handleMessage, sigTypes, hdec, hch]

theorem joinVoiceRoom_conns (h : HubState) (ch : ChannelId) (c : ClientId) :
    (joinVoiceRoom h ch c).1.conns = h.conns := rfl

theorem joinVoiceRoom_snd (h : HubState) (ch : ChannelId) (c : ClientId) :
    (joinVoiceRoom h ch c).2 = (roomMembers h ch).map (userOf h) := rfl

theorem joinVoiceRoom_roomMembers (h : HubState) (ch : ChannelId) (c : ClientId) :
    roomMembers (joinVoiceRoom h ch c).1 ch
      = if c ∈ roomMembers h ch then roomMembers h ch else roomMembers h ch ++ [c] := by
  unfold joinVoiceRoom roomMembers
  simp [findRoom_setRoom_self]

theorem handleMessage_join_lookup_self (h : HubState) (c : ClientId) (d : RawData)
    (ch : String) (cs : ConnState)
    (hdec : decodeChannelID d = some ch) (hch : ch ≠ "")
    (hlk : lookupConn h c = some cs) (hca : canAccept cs = true) :
    lookupConn (handleMessage h c "voice.join" d) c
      = some { cs with
               queue := cs.queue ++ [roomStateEvent ch ((roomMembers h ch).map (userOf h))] } := by
  rw [handleMessage_join h c d ch hdec hch, hubBroadcast_lookup,
    BroadcastToVoiceRoom_lookup_excluded]
  show lookupConn (sendOne (joinVoiceRoom h ch c).1 c (roomStateEvent ch (joinVoiceRoom h ch c).2)) c = _
  rw [lookupConn_sendOne_self]
  have hlk2 : lookupConn (joinVoiceRoom h ch c).1 c = some cs := hlk
  rw [hlk2, Option.map_some', trySend_of_canAccept _ _ hca, joinVoiceRoom_snd]

/-! ## Claim C1 -/

/-- C1: an inbound `voice.offer`/`voice.answer`/`voice.ice` command is
forwarded to the target user iff `AreInSameVoiceRoom` holds for the
channel, the sender's user and the target user at the moment of the check;
otherwise the hub state is completely unchanged (silent drop, nothing is
sent back to the sender). -/
theorem signaling_relay_gated_by_co_membership (h : HubState) (c : ClientId)
    (ty : String) (d : RawData) (ch tgt : String) (pl : JVal)
    (hty : ty ∈ sigTypes)
    (hdec : decodeSignal d = some (ch, tgt, pl))
    (htgt : tgt ≠ "") :
    handleMessage h c ty d =
      if AreInSameVoiceRoom h ch (userOf h c) tgt
      then SendToUser h tgt (signalEvent ty ch (userOf h c) pl)
      else h :=
  handleMessage_signal h c ty d ch tgt pl hty hdec htgt

/-- Witness for C1 at a concrete hub with u1 and u2 in room "gen". -/
theorem signaling_relay_gated_by_co_membership_witness :
    ("voice.offer" ∈ sigTypes) ∧
    decodeSignal (RawData.obj fsOffer) = some ("gen", "u2", JVal.raw "sdp-bytes") ∧
    handleMessage hubTwoInRoom 0 "voice.offer" (RawData.obj fsOffer) =
      (if AreInSameVoiceRoom hubTwoInRoom "gen" (userOf hubTwoInRoom 0) "u2"
       then SendToUser hubTwoInRoom "u2"
         (signalEvent "voice.offer" "gen" (userOf hubTwoInRoom 0) (JVal.raw "sdp-bytes"))
       else hubTwoInRoom) :=
  ⟨by decide, by decide,
   signaling_relay_gated_by_co_membership hubTwoInRoom 0 "voice.offer" (RawData.obj fsOffer)
     "gen" "u2" (JVal.raw "sdp-bytes") (by decide) (by decide) (by decide)⟩

/-! ## Claim C6 -/

/-- C6: when a signaling relay is authorized, every registered connection
of the target user with room in its queue receives exactly the wrapped
event: the inbound type tag, the original `channel_id`, `from_user_id`
equal to the sender's user ID, and the payload bytes unmodified. -/
theorem authorized_relay_delivers_wrapped_payload (h : HubState) (c : ClientId)
    (ty : String) (d : RawData) (ch tgt : String) (pl : JVal)
    (t : ClientId) (tcs : ConnState)
    (hnd : h.clients.Nodup)
    (hty : ty ∈ sigTypes)
    (hdec : decodeSignal d = some (ch, tgt, pl))
    (htgt : tgt ≠ "")
    (hauth : AreInSameVoiceRoom h ch (userOf h c) tgt = true)
    (ht : t ∈ h.clients) (htu : userOf h t = tgt)
    (hlk : lookupConn h t = some tcs) (hca : canAccept tcs = true) :
    lookupConn (handleMessage h c ty d) t
      = some { tcs with queue := tcs.queue ++ [signalEvent ty ch (userOf h c) pl] } := by
  rw [handleMessage_signal h c ty d ch tgt pl hty hdec htgt, if_pos hauth]
  exact SendToUser_lookup_send h tgt _ t tcs hnd ht htu hlk hca

/-- Witness for C6: u2's connection receives the wrapped offer verbatim. -/
theorem authorized_relay_delivers_wrapped_payload_witness :
    AreInSameVoiceRoom hubTwoInRoom "gen" (userOf hubTwoInRoom 0) "u2" = true ∧
    lookupConn (handleMessage hubTwoInRoom 0 "voice.offer" (RawData.obj fsOffer)) 1
      = some { mkConn "u2" with
               queue := [signalEvent "voice.offer" "gen" "u1" (JVal.raw "sdp-bytes")] } :=
  ⟨by decide,
   authorized_relay_delivers_wrapped_payload hubTwoInRoom 0 "voice.offer" (RawData.obj fsOffer)
     "gen" "u2" (JVal.raw "sdp-bytes") 1 (mkConn "u2")
     (by decide) (by decide) (by decide) (by decide) (by decide)
     (by decide) (by decide) (by decide) (by decide)⟩

/-! ## Claim C7 -/

/-- C7: a channel-scoped broadcast to channel B leaves the outbound queue
of every connection whose viewed channel differs from B completely
untouched — the event is enqueued only for viewers of B. -/
theorem channel_isolation (h : HubState) (b : ChannelId) (e : WSEvent)
    (t : ClientId) (cs : ConnState)
    (hlk : lookupConn h t = some cs) (hne : cs.channelID ≠ b) :
    lookupConn (BroadcastToChannel h b e) t = some cs :=
  BroadcastToChannel_lookup_other h b e t cs hlk hne

/-- Witness for C7: the viewer of channel "A" is untouched by a broadcast
to channel "B". -/
theorem channel_isolation_witness :
    lookupConn hubChannels 0 = some (mkConnCh "u1" "A") ∧
    lookupConn (BroadcastToChannel hubChannels "B" evMsg) 0 = some (mkConnCh "u1" "A") :=
  ⟨by decide,
   channel_isolation hubChannels "B" evMsg 0 (mkConnCh "u1" "A") (by decide) (by decide)⟩

/-! ## Claim C2 -/

theorem noEmptyRooms_join (h : HubState) (ch : ChannelId) (c : ClientId)
    (hinv : noEmptyRooms h) : noEmptyRooms (joinVoiceRoom h ch c).1 := by
  intro p hp
  have hp2 : p ∈ setRoom h.voiceRooms ch
      (if c ∈ (findRoom h.voiceRooms ch).getD [] then (findRoom h.voiceRooms ch).getD []
       else (findRoom h.voiceRooms ch).getD [] ++ [c]) := hp
  rcases setRoom_mem _ _ _ p hp2 with heq | hmem
  · rw [heq]
    by_cases hc : c ∈ (findRoom h.voiceRooms ch).getD []
    · simp only [if_pos hc]
      exact List.ne_nil_of_mem hc
    · simp only [if_neg hc]
      simp
  · exact hinv p hmem

theorem noEmptyRooms_leave (h : HubState) (ch : ChannelId) (c : ClientId)
    (hinv : noEmptyRooms h) : noEmptyRooms (leaveVoiceRoom h ch c).1 := by
  unfold leaveVoiceRoom
  cases hfr : findRoom h.voiceRooms ch with
  | none => exact hinv
  | some room =>
    simp only [hfr]
    split_ifs with hc hemp
    · intro p hp
      exact hinv p (delRoom_mem _ _ p hp)
    · intro p hp
      rcases setRoom_mem _ _ _ p hp with heq | hmem
      · rw [heq]
        simpa [List.isEmpty_iff] using hemp
      · exact hinv p hmem
    · exact hinv

theorem noEmptyRooms_leaveAll (h : HubState) (c : ClientId)
    (hinv : noEmptyRooms h) : noEmptyRooms (leaveAllVoiceRooms h c) := by
  intro p hp
  rw [leaveAll_voiceRooms] at hp
  exact removeFromAll_nonempty c h.voiceRooms hinv p hp

/-- C2: starting from any registry satisfying the emptiness invariant (in
particular the empty one), any finite sequence of Join / Leave / LeaveAll
operations leaves no room entry with an empty membership set, and
`GetVoiceRoomSnapshot` never returns an empty user-ID list for any key. -/
theorem room_emptiness_invariant (h : HubState) (ops : List RegOp)
    (hinv : noEmptyRooms h) :
    noEmptyRooms (ops.foldl applyOp h) ∧
    ∀ p ∈ GetVoiceRoomSnapshot (ops.foldl applyOp h), p.2 ≠ ([] : List UserId) := by
  have hstep : ∀ (g : HubState) (op : RegOp), noEmptyRooms g → noEmptyRooms (applyOp g op) := by
    intro g op hg
    cases op with
    | join ch c => exact noEmptyRooms_join g ch c hg
    | leave ch c => exact noEmptyRooms_leave g ch c hg
    | leaveAll c => exact noEmptyRooms_leaveAll g c hg
  have hfin : noEmptyRooms (ops.foldl applyOp h) := by
    induction ops generalizing h with
    | nil => exact hinv
    | cons op ops ih => exact ih (applyOp h op) (hstep h op hinv)
  refine ⟨hfin, ?_⟩
  intro p hp
  rcases List.mem_map.mp hp with ⟨q, hq, hpq⟩
  rw [← hpq]
  intro hnil
  exact hfin q hq (List.map_eq_nil.mp hnil)

/-- Witness for C2 on a concrete operation sequence from the empty
registry: joins, a partial leave, a re-join elsewhere and a disconnect. -/
theorem room_emptiness_invariant_witness :
    noEmptyRooms hubScenA ∧
    noEmptyRooms
      ([RegOp.join "gen" 0, RegOp.join "gen" 1, RegOp.leave "gen" 0,
        RegOp.join "x" 1, RegOp.leaveAll 1].foldl applyOp hubScenA) ∧
    ∀ p ∈ GetVoiceRoomSnapshot
      ([RegOp.join "gen" 0, RegOp.join "gen" 1, RegOp.leave "gen" 0,
        RegOp.join "x" 1, RegOp.leaveAll 1].foldl applyOp hubScenA),
      p.2 ≠ ([] : List UserId) := by
  have hinv : noEmptyRooms hubScenA := by
    intro p hp
    simp [hubScenA] at hp
  exact ⟨hinv,
    (room_emptiness_invariant hubScenA
      [RegOp.join "gen" 0, RegOp.join "gen" 1, RegOp.leave "gen" 0,
       RegOp.join "x" 1, RegOp.leaveAll 1] hinv).1,
    (room_emptiness_invariant hubScenA
      [RegOp.join "gen" 0, RegOp.join "gen" 1, RegOp.leave "gen" 0,
       RegOp.join "x" 1, RegOp.leaveAll 1] hinv).2⟩

/-! ## Claim C3 -/

/-- C3: unregistering the same connection twice, and running the
disconnect room-cleanup twice, each yield exactly the same final hub state
as doing it once — the connection set, the conn states (queue contents and
closed flags), the room registry and the emitted `voice.left` events
(room-directed enqueues and global broadcasts) are all unchanged by the
second call. -/
theorem cleanup_is_idempotent (h : HubState) (c : ClientId) :
    unregister (unregister h c) c = unregister h c ∧
    leaveAllVoiceRooms (leaveAllVoiceRooms h c) c = leaveAllVoiceRooms h c := by
  have hnoop : ∀ (g : HubState), c ∉ g.clients → (∀ p ∈ g.voiceRooms, c ∉ p.2) →
      unregister g c = g := by
    intro g hcu hrooms
    unfold unregister
    rw [if_neg hcu]
    exact leaveAll_of_no_rooms g c hrooms
  constructor
  · have hcu : c ∉ (unregister h c).clients := by
      unfold unregister
      rw [leaveAll_clients]
      by_cases hm : c ∈ h.clients
      · rw [if_pos hm]
        exact not_mem_filter_ne_self h.clients c
      · rw [if_neg hm]
        exact hm
    have hrooms : ∀ p ∈ (unregister h c).voiceRooms, c ∉ p.2 := by
      unfold unregister
      exact leaveAll_not_in_rooms _ c
    exact hnoop (unregister h c) hcu hrooms
  · exact leaveAll_of_no_rooms _ c (leaveAll_not_in_rooms h c)

/-! ## Claim C8 -/

/-- C8: malformed inbound frames are discarded without any state change
and without terminating the read loop — bytes that fail top-level JSON
parsing are skipped and the loop continues; an unknown type tag is a
no-op; a frame whose `data` fails to unmarshal is a no-op; a `voice.join`
with empty `channel_id` is a no-op; a signaling frame with empty
`target_user_id` is a no-op. -/
theorem malformed_frames_are_ignored (h : HubState) (c : ClientId) (ty : String)
    (d : RawData) (frames : List Frame) (fs : List (String × JVal)) :
    readLoop h c (Frame.badJSON :: frames) = readLoop h c frames ∧
    (ty ∉ knownTypes → handleMessage h c ty d = h) ∧
    handleMessage h c ty RawData.bad = h ∧
    (decodeChannelID (RawData.obj fs) = some "" →
      handleMessage h c "voice.join" (RawData.obj fs) = h) ∧
    (∀ ch pl, ty ∈ sigTypes → decodeSignal (RawData.obj fs) = some (ch, "", pl) →
      handleMessage h c ty (RawData.obj fs) = h) := by
  refine ⟨rfl, ?_, ?_, ?_, ?_⟩
  · intro hty
    have h1 : ty ≠ "subscribe" := fun hh => hty (by rw [hh]; decide)
    have h2 : ty ≠ "typing" := fun hh => hty (by rw [hh]; decide)
    have h3 : ty ≠ "voice.join" := fun hh => hty (by rw [hh]; decide)
    have h4 : ty ≠ "voice.leave" := fun hh => hty (by rw [hh]; decide)
    have h5 : ty ∉ sigTypes := by
      intro hh
      have : ty = "voice.offer" ∨ ty = "voice.answer" ∨ ty = "voice.ice" := by
        simpa [sigTypes] using hh
      rcases this with rfl | rfl | rfl
      · exact hty (by decide)
      · exact hty (by decide)
      · exact hty (by decide)
    have h6 : ty ≠ "voice.media_state" := fun hh => hty (by rw [hh]; decide)
    unfold handleMessage
    rw [if_neg h1, if_neg h2, if_neg h3, if_neg h4, if_neg h5, if_neg h6]
  · unfold handleMessage
    split_ifs <;> rfl
  · intro hdec
    simp [handleMessage, hdec]
  · intro ch pl hty hdec
    have hty3 : ty = "voice.offer" ∨ ty = "voice.answer" ∨ ty = "voice.ice" := by
      simpa [sigTypes] using hty
    rcases hty3 with rfl | rfl | rfl <;> simp [handleMessage, sigTypes, hdec]

/-- Witness for C8: a garbage type tag, bad JSON, and undecodable data all
leave a concrete hub unchanged while the loop keeps going. -/
theorem malformed_frames_are_ignored_witness :
    ("bogus" ∉ knownTypes) ∧
    readLoop hubTwoInRoom 0 [Frame.badJSON] = hubTwoInRoom ∧
    handleMessage hubTwoInRoom 0 "bogus" (RawData.obj []) = hubTwoInRoom ∧
    handleMessage hubTwoInRoom 0 "voice.join" RawData.bad = hubTwoInRoom :=
  ⟨by decide,
   (malformed_frames_are_ignored hubTwoInRoom 0 "bogus" (RawData.obj []) [] []).1,
   (malformed_frames_are_ignored hubTwoInRoom 0 "bogus" (RawData.obj []) [] []).2.1 (by decide),
   (malformed_frames_are_ignored hubTwoInRoom 0 "voice.join" RawData.bad [] []).2.2.1⟩

/-! ## Claim C9 -/

/-- C9: a `voice.media_state` command with non-empty `channel_id` is
fanned out to every member of that room except the sender, with
`from_user_id` attached — the dispatch equation holds for every hub state,
with no co-membership or membership check on the sender. -/
theorem media_state_fanout_without_membership_check (h : HubState) (c : ClientId)
    (d : RawData) (ch : String) (cam ss : Bool) (m : ClientId) (mcs : ConnState)
    (hdec : decodeMediaState d = some (ch, cam, ss)) (hch : ch ≠ "")
    (hnd : (roomMembers h ch).Nodup) (hm : m ∈ roomMembers h ch) (hne : m ≠ c)
    (hlk : lookupConn h m = some mcs) (hca : canAccept mcs = true) :
    handleMessage h c "voice.media_state" d
      = BroadcastToVoiceRoom h ch (mediaStateEvent ch (userOf h c) cam ss) (some c) ∧
    lookupConn (handleMessage h c "voice.media_state" d) m
      = some { mcs with queue := mcs.queue ++ [mediaStateEvent ch (userOf h c) cam ss] } := by
  constructor
  · exact handleMessage_media h c d ch cam ss hdec hch
  · rw [handleMessage_media h c d ch cam ss hdec hch]
    exact BroadcastToVoiceRoom_lookup_send h ch _ c m mcs hnd hm hne hlk hca

/-- Witness for C9: client 2 (user u3) is not a member of room "gen", yet
its media_state is delivered to member client 0 with from_user_id u3. -/
theorem media_state_fanout_without_membership_check_witness :
    (2 ∉ roomMembers hubTwoInRoom "gen") ∧
    lookupConn (handleMessage hubTwoInRoom 2 "voice.media_state" (RawData.obj fsMedia)) 0
      = some { mkConn "u1" with queue := [mediaStateEvent "gen" "u3" true false] } :=
  ⟨by decide,
   (media_state_fanout_without_membership_check hubTwoInRoom 2 (RawData.obj fsMedia)
     "gen" true false 0 (mkConn "u1")
     (by decide) (by decide) (by decide) (by decide) (by decide) (by decide) (by decide)).2⟩

/-! ## Claim C5 -/

/-- Counterexample to C5 as stated: when the joining connection is already
a member of the room (client 0 of `hubRejoin` in room "gen"), the list
returned by Join is NOT the prior membership with the joiner excluded —
the snapshot precedes the insertion with no presence check, so the
joiner's own user ID is included. -/
theorem join_excludes_joiner_refuted :
    (joinVoiceRoom hubRejoin "gen" 0).2
      ≠ ((roomMembers hubRejoin "gen").filter (fun x => x != 0)).map (userOf hubRejoin) := by
  decide

/-- C5 (amended): Join returns exactly the user IDs of the connections
that were members of the room immediately before the join — which cannot
include the joiner unless it was already a member — and the joiner's
`voice.room_state` reply carries exactly that list as its participants
field; in particular the first joiner receives the empty list and a
second, distinct joiner receives exactly the first joiner's user ID. -/
theorem join_returns_prior_members (h : HubState) (c : ClientId) (d : RawData)
    (ch : String) (cs : ConnState)
    (hdec : decodeChannelID d = some ch) (hch : ch ≠ "")
    (hlk : lookupConn h c = some cs) (hca : canAccept cs = true) :
    (joinVoiceRoom h ch c).2 = (roomMembers h ch).map (userOf h) ∧
    lookupConn (handleMessage h c "voice.join" d) c
      = some { cs with
               queue := cs.queue ++ [roomStateEvent ch ((roomMembers h ch).map (userOf h))] } :=
  ⟨joinVoiceRoom_snd h ch c,
   handleMessage_join_lookup_self h c d ch cs hdec hch hlk hca⟩

/-- Witness for C5 (scenario A): the first joiner's room_state reply has
empty participants; the second joiner's Join returns exactly [u1]. -/
theorem join_returns_prior_members_witness :
    (joinVoiceRoom hubScenA "general-voice" 0).2 = [] ∧
    lookupConn (handleMessage hubScenA 0 "voice.join" dJoinGen) 0
      = some { mkConn "u1" with queue := [roomStateEvent "general-voice" []] } ∧
    (joinVoiceRoom hubAfterFirstJoin "general-voice" 1).2 = ["u1"] :=
  ⟨(join_returns_prior_members hubScenA 0 dJoinGen "general-voice" (mkConn "u1")
      (by decide) (by decide) (by decide) (by decide)).1,
   (join_returns_prior_members hubScenA 0 dJoinGen "general-voice" (mkConn "u1")
      (by decide) (by decide) (by decide) (by decide)).2,
   ((join_returns_prior_members hubAfterFirstJoin 1 dJoinGen "general-voice" (mkConn "u2")
      (by decide) (by decide) (by decide) (by decide)).1).trans (by decide)⟩

/-! ## Claim C10 -/

/-- C10: a `voice.join` from a connection already in the room leaves the
membership set unchanged, and the existing-member list returned (and sent
back as the `voice.room_state` participants) includes that connection's
own user ID, because the snapshot precedes the (re-)insertion with no
presence check. -/
theorem rejoin_keeps_membership_and_lists_self (h : HubState) (c : ClientId)
    (d : RawData) (ch : String) (cs : ConnState)
    (hm : c ∈ roomMembers h ch)
    (hdec : decodeChannelID d = some ch) (hch : ch ≠ "")
    (hlk : lookupConn h c = some cs) (hca : canAccept cs = true) :
    roomMembers (joinVoiceRoom h ch c).1 ch = roomMembers h ch ∧
    userOf h c ∈ (joinVoiceRoom h ch c).2 ∧
    lookupConn (handleMessage h c "voice.join" d) c
      = some { cs with queue := cs.queue ++ [roomStateEvent ch ((joinVoiceRoom h ch c).2)] } := by
  refine ⟨?_, ?_, ?_⟩
  · rw [joinVoiceRoom_roomMembers, if_pos hm]
  · rw [joinVoiceRoom_snd]
    exact List.mem_map_of_mem (userOf h) hm
  · rw [joinVoiceRoom_snd]
    exact handleMessage_join_lookup_self h c d ch cs hdec hch hlk hca

/-- Witness for C10: client 0 re-joins room "gen" it is already in. -/
theorem rejoin_keeps_membership_and_lists_self_witness :
    (0 ∈ roomMembers hubRejoin "gen") ∧
    roomMembers (joinVoiceRoom hubRejoin "gen" 0).1 "gen" = roomMembers hubRejoin "gen" ∧
    userOf hubRejoin 0 ∈ (joinVoiceRoom hubRejoin "gen" 0).2 ∧
    lookupConn (handleMessage hubRejoin 0 "voice.join" dGen) 0
      = some { mkConn "u1" with queue := [roomStateEvent "gen" ["u1"]] } :=
  ⟨by decide,
   (rejoin_keeps_membership_and_lists_self hubRejoin 0 dGen "gen" (mkConn "u1")
     (by decide) (by decide) (by decide) (by decide) (by decide)).1,
   (rejoin_keeps_membership_and_lists_self hubRejoin 0 dGen "gen" (mkConn "u1")
     (by decide) (by decide) (by decide) (by decide) (by decide)).2.1,
   (rejoin_keeps_membership_and_lists_self hubRejoin 0 dGen "gen" (mkConn "u1")
     (by decide) (by decide) (by decide) (by decide) (by decide)).2.2⟩

/-! ## Claim C4 -/

/-- C4: when exactly one connection `s` of the global set has a full
(stalled) outbound queue, a global broadcast enqueues the event exactly
once on each other connection's queue, and afterwards `s` has been removed
from the global connection set and its queue has been closed. -/
theorem broadcast_evicts_stalled_connection (h : HubState) (e : WSEvent)
    (s : ClientId) (scs : ConnState)
    (hnd : h.clients.Nodup) (hs : s ∈ h.clients)
    (hslk : lookupConn h s = some scs) (hsfull : canAccept scs = false)
    (hoth : ∀ c ∈ h.clients, c ≠ s → acceptsNow h c = true) :
    (∀ c ∈ h.clients, c ≠ s → ∀ cs, lookupConn h c = some cs →
        lookupConn (runBroadcast h e) c = some { cs with queue := cs.queue ++ [e] }) ∧
    s ∉ (runBroadcast h e).clients ∧
    lookupConn (runBroadcast h e) s = some { scs with queueClosed := true } := by
  have hdead : (sendPhase e h h.clients).2 = [s] := by
    rw [sendPhase_dead e h.clients h hnd]
    apply filter_eq_singleton_of_unique h.clients _ s hnd hs
    intro x hx
    constructor
    · intro hpx
      by_contra hxs
      rw [hoth x hx hxs] at hpx
      simp at hpx
    · intro hxs
      subst hxs
      have hax : acceptsNow h x = false := by
        unfold acceptsNow
        rw [hslk]
        exact hsfull
      rw [hax]
      rfl
  have hrb : runBroadcast h e = evictOne (sendPhase e h h.clients).1 s := by
    show (sendPhase e h h.clients).2.foldl evictOne (sendPhase e h h.clients).1 = _
    rw [hdead]
    rfl
  have hsmem1 : s ∈ (sendPhase e h h.clients).1.clients := by
    rw [sendPhase_clients]
    exact hs
  refine ⟨?_, ?_, ?_⟩
  · intro c hc hcs cs hlkc
    have hacc : canAccept cs = true := by
      have := hoth c hc hcs
      unfold acceptsNow at this
      rw [show lookupConn h c = some cs from hlkc] at this
      exact this
    rw [hrb, evictOne_lookup_ne _ _ _ hcs,
      sendPhase_lookup_mem e h.clients h c hnd hc, hlkc, Option.map_some',
      trySend_of_canAccept _ _ hacc]
  · rw [hrb, evictOne_clients_of_mem _ _ hsmem1]
    exact not_mem_filter_ne_self _ s
  · rw [hrb, evictOne_lookup_self _ _ hsmem1,
      sendPhase_lookup_mem e h.clients h s hnd hs, hslk, Option.map_some',
      trySend_of_full _ _ hsfull, Option.map_some']

/-- Witness for C4: in `hubStalled` client 1's queue has capacity 0; a
broadcast delivers to clients 0 and 2 once each and evicts client 1. -/
theorem broadcast_evicts_stalled_connection_witness :
    (1 ∈ hubStalled.clients) ∧
    canAccept stalledConn = false ∧
    lookupConn (runBroadcast hubStalled evMsg) 0 = some { mkConn "u1" with queue := [evMsg] } ∧
    (1 ∉ (runBroadcast hubStalled evMsg).clients) ∧
    lookupConn (runBroadcast hubStalled evMsg) 1 = some { stalledConn with queueClosed := true } :=
  ⟨by decide, by decide,
   (broadcast_evicts_stalled_connection hubStalled evMsg 1 stalledConn
     (by decide) (by decide) (by decide) (by decide) (by decide)).1 0
     (by decide) (by decide) (mkConn "u1") (by decide),
   (broadcast_evicts_stalled_connection hubStalled evMsg 1 stalledConn
     (by decide) (by decide) (by decide) (by decide) (by decide)).2.1,
   (broadcast_evicts_stalled_connection hubStalled evMsg 1 stalledConn
     (by decide) (by decide) (by decide) (by decide) (by decide)).2.2⟩

end Chirm
